import Mathlib

/-!
Verification development for the `dfsr` repository.

Shallow embedding of the concurrency/recovery helpers:
* `helper/durablereporter.go` — `durableReporter.attempt`, `durableReporter.assess`,
  `durableReporter.recover`;
* `poller/poller.go` — the single-flight poller state machine;
* `helper/client.go` — the server registry (`Client.server`, `Client.Backlog`,
  `Client.Close`).

External collaborators (`NewReporter`, the `Reporter` interface methods, clocks)
are modelled as oracles: functions supplied as parameters that give the result of
the k-th invocation of the collaborator.  Control flow is translated directly
from the Go source.
-/

set_option autoImplicit false

namespace Dfsr

/-! ### Errors

`RErr.closed` stands for the distinguished `ErrClosed` value; every other error
is `RErr.err c` for some code `c` (error identity in Go is pointer identity of
the `errors.New` value, modelled by the code). -/

inductive RErr where
  | closed
  | err (code : Nat)
deriving DecidableEq, Repr

/-- An error is retryable when it is present and is not `ErrClosed`. -/
def Retryable : Option RErr → Prop
  | some (RErr.err _) => True
  | _ => False

instance (e : Option RErr) : Decidable (Retryable e) := by
  unfold Retryable
  cases e with
  | none => exact inferInstanceAs (Decidable False)
  | some e' =>
    cases e' with
    | closed => exact inferInstanceAs (Decidable False)
    | err c => exact inferInstanceAs (Decidable True)

/-! ### `durableReporter.assess` (helper/durablereporter.go lines 115–132)

```go
func (r *durableReporter) assess(attempt uint, reporter Reporter, err error) (reattempt bool, resultingError error) {
    if err == nil { return false, err }
    if err == ErrClosed { return false, err }
    if attempt+1 >= r.attempts {
        go r.recover(reporter)
        return false, err
    }
    if rerr := r.recover(reporter); rerr != nil { return true, rerr }
    return true, err
}
```

The result of the blocking `r.recover` call is supplied as the oracle value
`recoverResult`; the two flags record whether a blocking recover was invoked
and whether a background (`go`) recover was spawned. -/

structure AssessOut where
  reattempt : Bool
  err : Option RErr
  blockingRecover : Bool
  backgroundRecover : Bool
deriving DecidableEq, Repr

def assess (attempts : Nat) (attempt : Nat) (err : Option RErr)
    (recoverResult : Option RErr) : AssessOut :=
  match err with
  | none => ⟨false, none, false, false⟩
  | some RErr.closed => ⟨false, some RErr.closed, false, false⟩
  | some e =>
    if attempt + 1 ≥ attempts then
      ⟨false, some e, false, true⟩
    else
      match recoverResult with
      | some rerr => ⟨true, some rerr, true, false⟩
      | none => ⟨true, some e, true, false⟩

/-! ### `durableReporter.attempt` (helper/durablereporter.go lines 97–111)

```go
func (r *durableReporter) attempt(action reporterAction) (err error) {
    var reattempt bool
    for i := uint(0); i < r.attempts; i++ {
        r.mutex.RLock(); reporter := r.r; r.mutex.RUnlock()
        err = action(reporter)
        reattempt, err = r.assess(i, reporter, err)
        if !reattempt { return }
    }
    return
}
```

Oracles: `action k` is the result of the k-th invocation of the underlying
call; `recoverRes k` is the result of the k-th *blocking* `recover` invocation.
The trace records the final error together with the number of action calls,
blocking recover invocations and background recover spawns. -/

structure AttemptTrace where
  err : Option RErr
  actionCalls : Nat
  blockingRecovers : Nat
  backgroundRecovers : Nat
deriving DecidableEq, Repr

def attemptLoop (attempts : Nat) (action : Nat → Option RErr)
    (recoverRes : Nat → Option RErr) :
    Nat → Nat → Nat → Nat → Option RErr → AttemptTrace
  | 0, aCalls, bRec, gRec, lastErr => ⟨lastErr, aCalls, bRec, gRec⟩
  | rem + 1, aCalls, bRec, gRec, _ =>
    let i := attempts - (rem + 1)
    let e := action aCalls
    let a := assess attempts i e (recoverRes bRec)
    let bRec' := bRec + (if a.blockingRecover then 1 else 0)
    let gRec' := gRec + (if a.backgroundRecover then 1 else 0)
    if a.reattempt then
      attemptLoop attempts action recoverRes rem (aCalls + 1) bRec' gRec' a.err
    else
      ⟨a.err, aCalls + 1, bRec', gRec'⟩

def attempt (attempts : Nat) (action : Nat → Option RErr)
    (recoverRes : Nat → Option RErr) : AttemptTrace :=
  attemptLoop attempts action recoverRes attempts 0 0 0 none

/-- Total number of recreation attempts triggered over one call: blocking
recover invocations plus background recover spawns. -/
def AttemptTrace.totalRecovers (t : AttemptTrace) : Nat :=
  t.blockingRecovers + t.backgroundRecovers

theorem retryable_exists {e : Option RErr} (h : Retryable e) :
    ∃ c, e = some (RErr.err c) := by
  cases e with
  | none => exact absurd h (by simp [Retryable])
  | some e' =>
    cases e' with
    | closed => exact absurd h (by simp [Retryable])
    | err c => exact ⟨c, rfl⟩

/-- Exact shape of the loop when every underlying call fails with a retryable
error: each of the `rem` remaining iterations makes one action call; all but
the last trigger a blocking recover, the last spawns a background recover and
surfaces the last action error. -/
theorem attemptLoop_all_retryable (attempts : Nat)
    (action recoverRes : Nat → Option RErr)
    (hact : ∀ k, Retryable (action k)) :
    ∀ rem aCalls bRec gRec e₀, 1 ≤ rem → rem ≤ attempts →
      attemptLoop attempts action recoverRes rem aCalls bRec gRec e₀ =
        ⟨action (aCalls + rem - 1), aCalls + rem, bRec + (rem - 1), gRec + 1⟩ := by
  intro rem
  induction rem with
  | zero => intro _ _ _ _ h1 _; omega
  | succ n ih =>
    intro aCalls bRec gRec e₀ h1 h2
    obtain ⟨c, hc⟩ := retryable_exists (hact aCalls)
    rcases Nat.eq_zero_or_pos n with hn | hn
    · subst hn
      have hge : attempts - 1 + 1 ≥ attempts := by omega
      simp [attemptLoop, hc, assess, hge]
    · have hlt : ¬ (attempts - (n + 1) + 1 ≥ attempts) := by omega
      rcases hrr : recoverRes bRec with _ | rerr
      · simp only [attemptLoop, hc, assess, if_neg hlt, hrr, if_true,
          Bool.false_eq_true, if_false]
        rw [ih (aCalls + 1) (bRec + 1) (gRec + 0) (some (RErr.err c)) (by omega) (by omega)]
        have e1 : aCalls + 1 + n - 1 = aCalls + (n + 1) - 1 := by omega
        have e2 : aCalls + 1 + n = aCalls + (n + 1) := by omega
        have e3 : bRec + 1 + (n - 1) = bRec + (n + 1 - 1) := by omega
        simp only [e1, e2, e3, Nat.add_zero]
      · simp only [attemptLoop, hc, assess, if_neg hlt, hrr, if_true,
          Bool.false_eq_true, if_false]
        rw [ih (aCalls + 1) (bRec + 1) (gRec + 0) (some rerr) (by omega) (by omega)]
        have e1 : aCalls + 1 + n - 1 = aCalls + (n + 1) - 1 := by omega
        have e2 : aCalls + 1 + n = aCalls + (n + 1) := by omega
        have e3 : bRec + 1 + (n - 1) = bRec + (n + 1 - 1) := by omega
        simp only [e1, e2, e3, Nat.add_zero]

/-- The error surfaced by `attempt` is always the result of the last
invocation of the underlying action, whatever the recover results were. -/
theorem attemptLoop_err_last (attempts : Nat)
    (action recoverRes : Nat → Option RErr) :
    ∀ rem aCalls bRec gRec e₀, 1 ≤ rem → rem ≤ attempts →
      ∃ k, (attemptLoop attempts action recoverRes rem aCalls bRec gRec e₀).err
              = action k ∧
           (attemptLoop attempts action recoverRes rem aCalls bRec gRec e₀).actionCalls
              = k + 1 := by
  intro rem
  induction rem with
  | zero => intro _ _ _ _ h1 _; omega
  | succ n ih =>
    intro aCalls bRec gRec e₀ h1 h2
    rcases he : action aCalls with _ | e'
    · refine ⟨aCalls, ?_⟩
      simp [attemptLoop, he, assess]
    rcases e' with _ | c
    · refine ⟨aCalls, ?_⟩
      simp [attemptLoop, he, assess]
    rcases Nat.eq_zero_or_pos n with hn | hn
    · subst hn
      have hge : attempts - 1 + 1 ≥ attempts := by omega
      refine ⟨aCalls, ?_⟩
      simp [attemptLoop, he, assess, hge]
    · have hlt : ¬ (attempts - (n + 1) + 1 ≥ attempts) := by omega
      rcases hrr : recoverRes bRec with _ | rerr
      · simp only [attemptLoop, he, assess, if_neg hlt, hrr, if_true,
          Bool.false_eq_true, if_false]
        exact ih (aCalls + 1) (bRec + 1) (gRec + 0) (some (RErr.err c)) (by omega) (by omega)
      · simp only [attemptLoop, he, assess, if_neg hlt, hrr, if_true,
          Bool.false_eq_true, if_false]
        exact ih (aCalls + 1) (bRec + 1) (gRec + 0) (some rerr) (by omega) (by omega)

/-- Claim C3, counterexample.  With `retries = R = 0` (`attempts = 1`) and an
always-failing retryable action, the single failing attempt spawns one
background recreation attempt (`go r.recover` in `assess`), so the number of
recreation attempts triggered is 1, not at most `R = 0`. -/
theorem durable_retry_count_cex :
    (attempt 1 (fun _ => some (RErr.err 5)) (fun _ => none)).actionCalls = 1 ∧
    (attempt 1 (fun _ => some (RErr.err 5)) (fun _ => none)).totalRecovers = 1 ∧
    ¬ ((attempt 1 (fun _ => some (RErr.err 5)) (fun _ => none)).totalRecovers ≤ 0) := by
  decide

/-- Claim C3 (amended): with `retries = R` (`attempts = R + 1`) and an action
that always fails with a retryable error, the underlying call is invoked
exactly `R + 1` times, exactly `R` blocking recreation attempts are triggered,
plus exactly one final non-blocking (background) recreation attempt — `R + 1`
recover invocations in total — and the surfaced error is the last call's. -/
theorem durable_retry_counts (R : Nat) (action recoverRes : Nat → Option RErr)
    (hact : ∀ k, Retryable (action k)) :
    (attempt (R + 1) action recoverRes).actionCalls = R + 1 ∧
    (attempt (R + 1) action recoverRes).blockingRecovers = R ∧
    (attempt (R + 1) action recoverRes).backgroundRecovers = 1 ∧
    (attempt (R + 1) action recoverRes).err = action R := by
  have h := attemptLoop_all_retryable (R + 1) action recoverRes hact
    (R + 1) 0 0 0 none (by omega) (by omega)
  unfold attempt
  rw [h]
  simp

/-- Witness for `durable_retry_counts` at R = 2 with a concrete failing action. -/
theorem durable_retry_counts_witness :
    (attempt 3 (fun _ => some (RErr.err 5)) (fun _ => none)).actionCalls = 3 ∧
    (attempt 3 (fun _ => some (RErr.err 5)) (fun _ => none)).blockingRecovers = 2 ∧
    (attempt 3 (fun _ => some (RErr.err 5)) (fun _ => none)).backgroundRecovers = 1 ∧
    (attempt 3 (fun _ => some (RErr.err 5)) (fun _ => none)).err = some (RErr.err 5) :=
  durable_retry_counts 2 (fun _ => some (RErr.err 5)) (fun _ => none) (fun _ => trivial)

/-- Claim C2, counterexample.  `attempts = 2`, the action always fails with
error 7, and the blocking recreation fails with error 99.  The code retries
the original call anyway (2 action calls, not 1) and surfaces the last call
error 7, not the recreation failure 99 — contradicting "that recreation
failure is returned to the caller immediately and the original call is not
retried". -/
theorem durable_recovery_failure_cex :
    attempt 2 (fun _ => some (RErr.err 7)) (fun _ => some (RErr.err 99)) =
      ⟨some (RErr.err 7), 2, 1, 1⟩ ∧
    (attempt 2 (fun _ => some (RErr.err 7)) (fun _ => some (RErr.err 99))).err ≠
      some (RErr.err 99) := by
  decide

/-- Claim C2 (amended): on a non-final attempt failing with a retryable error,
`assess` reports `reattempt = true` regardless of whether the blocking
recreation succeeded or failed (the recreation error only transiently replaces
the error value), so the original call is retried in both cases; and the error
finally surfaced by `attempt` is always the result of the last underlying
call — a recreation failure is never returned to the caller. -/
theorem durable_recovery_failure_not_surfaced :
    (∀ attempts i c rres, i + 1 < attempts →
        (assess attempts i (some (RErr.err c)) rres).reattempt = true ∧
        (assess attempts i (some (RErr.err c)) rres).blockingRecover = true ∧
        (assess attempts i (some (RErr.err c)) rres).err =
          (match rres with
           | some rerr => some rerr
           | none => some (RErr.err c))) ∧
    (∀ attempts action recoverRes, 1 ≤ attempts →
        ∃ k, (attempt attempts action recoverRes).err = action k ∧
             (attempt attempts action recoverRes).actionCalls = k + 1) := by
  constructor
  · intro attempts i c rres hi
    have hlt : ¬ (i + 1 ≥ attempts) := by omega
    rcases rres with _ | rerr <;> simp [assess, hlt]
  · intro attempts action recoverRes h1
    exact attemptLoop_err_last attempts action recoverRes attempts 0 0 0 none h1 (by omega)

/-- Witness for `durable_recovery_failure_not_surfaced` at concrete inputs. -/
theorem durable_recovery_failure_witness :
    (assess 2 0 (some (RErr.err 7)) (some (RErr.err 99))).reattempt = true ∧
    (∃ k, (attempt 2 (fun _ => some (RErr.err 7)) (fun _ => some (RErr.err 99))).err
            = (fun _ => some (RErr.err 7) : Nat → Option RErr) k ∧
          (attempt 2 (fun _ => some (RErr.err 7)) (fun _ => some (RErr.err 99))).actionCalls
            = k + 1) :=
  ⟨(durable_recovery_failure_not_surfaced.1 2 0 7 (some (RErr.err 99)) (by omega)).1,
   durable_recovery_failure_not_surfaced.2 2 (fun _ => some (RErr.err 7))
     (fun _ => some (RErr.err 99)) (by omega)⟩

/-- Claim C7: when the underlying call returns the already-closed error,
`assess` returns it immediately with no retry and no recreation attempt
(neither blocking nor background); lifted to `attempt`, a first call that
returns `ErrClosed` ends the whole call with one action invocation and zero
recover invocations. -/
theorem durable_closed_terminal :
    (∀ attempts i rres,
        assess attempts i (some RErr.closed) rres =
          ⟨false, some RErr.closed, false, false⟩) ∧
    (∀ attempts action recoverRes, 1 ≤ attempts → action 0 = some RErr.closed →
        attempt attempts action recoverRes = ⟨some RErr.closed, 1, 0, 0⟩) := by
  constructor
  · intro attempts i rres
    rfl
  · intro attempts action recoverRes h1 h0
    obtain ⟨m, rfl⟩ : ∃ m, attempts = m + 1 := ⟨attempts - 1, by omega⟩
    simp [attempt, attemptLoop, h0, assess]

/-- Witness for `durable_closed_terminal` at concrete inputs. -/
theorem durable_closed_terminal_witness :
    assess 4 1 (some RErr.closed) none = ⟨false, some RErr.closed, false, false⟩ ∧
    attempt 3 (fun _ => some RErr.closed) (fun _ => none) = ⟨some RErr.closed, 1, 0, 0⟩ :=
  ⟨durable_closed_terminal.1 4 1 none,
   durable_closed_terminal.2 3 (fun _ => some RErr.closed) (fun _ => none)
     (by omega) rfl⟩

/-! ### `durableReporter.recover` (helper/durablereporter.go lines 135–153)

```go
func (r *durableReporter) recover(reporter Reporter) (err error) {
    r.mutex.Lock()
    defer r.mutex.Unlock()
    if r.r != reporter { return }                                    // identity check
    if time.Now().Sub(r.lastRecovery) < r.interval { return }        // rate limit
    reporter, err = NewReporter(r.server)
    if err == nil { go r.r.Close(); r.r = reporter }
    r.lastRecovery = time.Now()
    return
}
```

Sessions are identified by `Nat` ids (Go compares the interface values by
identity).  Times are `Nat` instants; `tNow` is the value of the first
`time.Now()` read, `tEnd` of the second one (taken after `NewReporter`
returns).  The outcome of `NewReporter` is supplied per invocation as
`NewRes`.  `constructed` records whether `NewReporter` was actually invoked —
an "actual recreation attempt". -/

inductive NewRes where
  | ok (freshId : Nat)
  | fail (code : Nat)
deriving DecidableEq, Repr

structure RecoverState where
  r : Nat
  lastRecovery : Nat
deriving DecidableEq, Repr

structure RecoverOut where
  st : RecoverState
  err : Option RErr
  constructed : Bool
deriving DecidableEq, Repr

def recover (interval : Nat) (st : RecoverState) (snapshot : Nat)
    (tNow : Nat) (newRes : NewRes) (tEnd : Nat) : RecoverOut :=
  if st.r ≠ snapshot then
    ⟨st, none, false⟩
  else if tNow - st.lastRecovery < interval then
    ⟨st, none, false⟩
  else
    match newRes with
    | NewRes.ok fresh => ⟨⟨fresh, tEnd⟩, none, true⟩
    | NewRes.fail c => ⟨⟨st.r, tEnd⟩, some (RErr.err c), true⟩

/-- One serialized `recover` invocation: the snapshot argument, the two clock
reads, and the `NewReporter` outcome. -/
structure RInv where
  snapshot : Nat
  tNow : Nat
  newRes : NewRes
  tEnd : Nat
deriving DecidableEq, Repr

/-- `Chrono t invs` — the invocations are serialized by the exclusive mutex:
each one starts no earlier than `t`, its second clock read is no earlier than
its first, and the next invocation starts no earlier than this one ends. -/
def Chrono : Nat → List RInv → Prop
  | _, [] => True
  | t, inv :: rest => t ≤ inv.tNow ∧ inv.tNow ≤ inv.tEnd ∧ Chrono inv.tEnd rest

/-- Run a sequence of serialized `recover` invocations, collecting the start
times of those that performed an actual recreation attempt. -/
def runRecover (interval : Nat) : RecoverState → List RInv → RecoverState × List Nat
  | st, [] => (st, [])
  | st, inv :: rest =>
    let out := recover interval st inv.snapshot inv.tNow inv.newRes inv.tEnd
    let next := runRecover interval out.st rest
    (next.1, (if out.constructed then [inv.tNow] else []) ++ next.2)

theorem runRecover_spaced (interval : Nat) :
    ∀ (invs : List RInv) (st : RecoverState) (t₀ : Nat),
      Chrono t₀ invs → st.lastRecovery ≤ t₀ →
      (runRecover interval st invs).2.Pairwise (fun a b => a + interval ≤ b) ∧
      (∀ x ∈ (runRecover interval st invs).2, st.lastRecovery + interval ≤ x) := by
  intro invs
  induction invs with
  | nil => intro st t₀ _ _; simp [runRecover]
  | cons inv rest ih =>
    intro st t₀ hch hlr
    obtain ⟨ht1, ht2, hch'⟩ := hch
    by_cases hid : st.r ≠ inv.snapshot
    · have hout : recover interval st inv.snapshot inv.tNow inv.newRes inv.tEnd =
          ⟨st, none, false⟩ := by simp [recover, hid]
      have := ih st inv.tEnd hch' (by omega)
      simpa [runRecover, hout] using this
    · by_cases hrl : inv.tNow - st.lastRecovery < interval
      · have hout : recover interval st inv.snapshot inv.tNow inv.newRes inv.tEnd =
            ⟨st, none, false⟩ := by simp [recover, hid, hrl]
        have := ih st inv.tEnd hch' (by omega)
        simpa [runRecover, hout] using this
      · -- an actual recreation attempt: the guard gives the spacing bound
        have hgap : st.lastRecovery + interval ≤ inv.tNow := by omega
        rcases hnr : inv.newRes with fresh | c
        · have hout : recover interval st inv.snapshot inv.tNow inv.newRes inv.tEnd =
              ⟨⟨fresh, inv.tEnd⟩, none, true⟩ := by simp [recover, hid, hrl, hnr]
          obtain ⟨hpw, hbd⟩ := ih ⟨fresh, inv.tEnd⟩ inv.tEnd hch' (by simp)
          constructor
          · simp only [runRecover, hout]
            refine List.Pairwise.cons ?_ hpw
            intro x hx
            have := hbd x hx
            simp only at this
            omega
          · intro x hx
            simp only [runRecover, hout, List.mem_append, List.mem_singleton] at hx
            rcases hx with hx | hx
            · simp at hx; omega
            · have := hbd x hx
              simp only at this
              omega
        · have hout : recover interval st inv.snapshot inv.tNow inv.newRes inv.tEnd =
              ⟨⟨st.r, inv.tEnd⟩, some (RErr.err c), true⟩ := by simp [recover, hid, hrl, hnr]
          obtain ⟨hpw, hbd⟩ := ih ⟨st.r, inv.tEnd⟩ inv.tEnd hch' (by simp)
          constructor
          · simp only [runRecover, hout]
            refine List.Pairwise.cons ?_ hpw
            intro x hx
            have := hbd x hx
            simp only at this
            omega
          · intro x hx
            simp only [runRecover, hout, List.mem_append, List.mem_singleton] at hx
            rcases hx with hx | hx
            · simp at hx; omega
            · have := hbd x hx
              simp only at this
              omega

/-- Claim C6: actual recreation attempts are rate limited.  (1) Over any
serialized sequence of `recover` invocations whose clock reads are
chronological and start after the recorded `lastRecovery`, the start times of
any two actual recreation attempts (constructions, successful or failed) are
at least `interval` apart.  (2) The attempt timestamp is recorded
unconditionally after every actual attempt: whenever a construction happens,
the new `lastRecovery` is the post-construction clock read, whether
`NewReporter` succeeded or failed.  (3) A recovery entered before `interval`
has elapsed since the last attempt is a no-op: it constructs nothing and
leaves the state unchanged. -/
theorem durable_recover_rate_limited (interval : Nat) :
    (∀ (invs : List RInv) (st : RecoverState) (t₀ : Nat),
        Chrono t₀ invs → st.lastRecovery ≤ t₀ →
        (runRecover interval st invs).2.Pairwise (fun a b => a + interval ≤ b)) ∧
    (∀ st snapshot tNow newRes tEnd,
        (recover interval st snapshot tNow newRes tEnd).constructed = true →
        (recover interval st snapshot tNow newRes tEnd).st.lastRecovery = tEnd ∧
        interval ≤ tNow - st.lastRecovery) ∧
    (∀ st snapshot tNow newRes tEnd, st.r = snapshot →
        tNow - st.lastRecovery < interval →
        recover interval st snapshot tNow newRes tEnd = ⟨st, none, false⟩) := by
  refine ⟨fun invs st t₀ hch hlr => (runRecover_spaced interval invs st t₀ hch hlr).1,
    ?_, ?_⟩
  · intro st snapshot tNow newRes tEnd hcon
    by_cases hid : st.r ≠ snapshot
    · simp [recover, hid] at hcon
    · by_cases hrl : tNow - st.lastRecovery < interval
      · simp [recover, hid, hrl] at hcon
      · rcases newRes with fresh | c <;> simp [recover, hid, hrl] <;> omega
  · intro st snapshot tNow newRes tEnd hid hrl
    simp [recover, hid, hrl]

/-- Witness for `durable_recover_rate_limited` on a concrete trace: with
interval 10, three invocations at times 0, 5 and 12 — the first constructs,
the second is rate-limited away, the third constructs again. -/
theorem durable_recover_rate_limited_witness :
    (runRecover 10 ⟨0, 0⟩
      [⟨0, 10, NewRes.ok 1, 11⟩, ⟨1, 15, NewRes.fail 5, 15⟩, ⟨1, 25, NewRes.ok 2, 26⟩]).2.Pairwise
        (fun a b => a + 10 ≤ b) ∧
    recover 10 ⟨1, 11⟩ 1 15 (NewRes.fail 5) 15 = ⟨⟨1, 11⟩, none, false⟩ :=
  ⟨(durable_recover_rate_limited 10).1
      [⟨0, 10, NewRes.ok 1, 11⟩, ⟨1, 15, NewRes.fail 5, 15⟩, ⟨1, 25, NewRes.ok 2, 26⟩]
      ⟨0, 0⟩ 10 (by simp [Chrono]) (by simp),
   (durable_recover_rate_limited 10).2.2 ⟨1, 11⟩ 1 15 (NewRes.fail 5) 15 rfl (by decide)⟩

/-! ### The Poller (poller/poller.go)

Transition system at the granularity of the mutex-protected sections:

* `startOk` / `startSkip` — `startUpdate` (lines 113–121): under the mutex, if
  `!closed && !updating` the update is acquired (`updating = true`), otherwise
  the trigger is dropped (`update` returns without polling, lines 102–106).
* `finish` — `finishUpdate` (lines 123–128): the goroutine that acquired the
  update clears `updating` and broadcasts on the condition variable.
* `closeFirst` / `closeAgain` — the head of `Close` (lines 44–54): under the
  mutex, a second call observes `closed` and returns immediately; the first
  call sets `closed` and proceeds to the wait loop.
* `closeFinish` — the tail of `Close` (lines 58–63): the wait loop
  `for p.updating { p.idle.Wait() }` exits only once `updating` is false, and
  then, still under the mutex, `p.source.Close()` runs.

`inFlight` counts goroutines between a successful `startUpdate` and their
`finishUpdate` — i.e. concurrent invocations of `source.Poll`.
`waitingClosers` counts callers of `Close` that passed the `closed` check and
have not yet closed the source.  `sourceCloses` counts executions of
`source.Close()`.  `dropped` counts dropped triggers. -/

structure PollerState where
  updating : Bool
  closed : Bool
  inFlight : Nat
  waitingClosers : Nat
  sourceCloses : Nat
  dropped : Nat
deriving DecidableEq, Repr

def pollerInit : PollerState := ⟨false, false, 0, 0, 0, 0⟩

inductive PLabel where
  | startOk
  | startSkip
  | finish
  | closeFirst
  | closeAgain
  | closeFinish
deriving DecidableEq, Repr

inductive PStep : PollerState → PLabel → PollerState → Prop where
  | startOk (s : PollerState) (h1 : s.closed = false) (h2 : s.updating = false) :
      PStep s PLabel.startOk
        { s with updating := true, inFlight := s.inFlight + 1 }
  | startSkip (s : PollerState) (h : s.closed = true ∨ s.updating = true) :
      PStep s PLabel.startSkip { s with dropped := s.dropped + 1 }
  | finish (s : PollerState) (h : 1 ≤ s.inFlight) :
      PStep s PLabel.finish
        { s with updating := false, inFlight := s.inFlight - 1 }
  | closeFirst (s : PollerState) (h : s.closed = false) :
      PStep s PLabel.closeFirst
        { s with closed := true, waitingClosers := s.waitingClosers + 1 }
  | closeAgain (s : PollerState) (h : s.closed = true) :
      PStep s PLabel.closeAgain s
  | closeFinish (s : PollerState) (h1 : 1 ≤ s.waitingClosers)
      (h2 : s.updating = false) :
      PStep s PLabel.closeFinish
        { s with waitingClosers := s.waitingClosers - 1,
                 sourceCloses := s.sourceCloses + 1 }

inductive PReach : PollerState → Prop where
  | init : PReach pollerInit
  | step {s s' : PollerState} {l : PLabel} :
      PReach s → PStep s l s' → PReach s'

/-- Inductive invariant of the poller: the in-flight count mirrors the
`updating` flag, nobody waits in `Close` (and the source is never closed)
before `closed` is set, and over the whole history at most one caller ever
gets past the `closed` check, hence at most one source close. -/
def PInv (s : PollerState) : Prop :=
  s.inFlight = (if s.updating then 1 else 0) ∧
  (s.closed = false → s.waitingClosers = 0 ∧ s.sourceCloses = 0) ∧
  s.waitingClosers + s.sourceCloses ≤ 1

theorem preach_inv : ∀ {s : PollerState}, PReach s → PInv s := by
  intro s h
  induction h with
  | init => simp [PInv, pollerInit]
  | @step s s' l hr hs ih =>
    obtain ⟨i1, i2, i3⟩ := ih
    cases hs with
    | startOk h1 h2 =>
      refine ⟨?_, ?_, ?_⟩ <;> simp_all [PInv]
    | startSkip h =>
      refine ⟨?_, ?_, ?_⟩ <;> simp_all [PInv]
    | finish h =>
      cases hu : s.updating with
      | false => refine ⟨?_, ?_, ?_⟩ <;> simp_all [PInv]
      | true => refine ⟨?_, ?_, ?_⟩ <;> simp_all [PInv]
    | closeFirst h =>
      have h2 := i2 h
      refine ⟨?_, ?_, ?_⟩ <;> simp_all [PInv]
    | closeAgain h =>
      exact ⟨i1, i2, i3⟩
    | closeFinish h1 h2 =>
      refine ⟨?_, ?_, ?_⟩
      · simp_all
      · intro hcl
        have h3 := i2 hcl
        omega
      · simp only
        omega

/-- Claim C4: at most one update is in flight in every reachable poller
state, so the polling source is never invoked concurrently with itself; a
trigger arriving while an update is running (or after close) is dropped —
the skip transition leaves the update state untouched and queues nothing,
only counting the dropped trigger; and when no update is marked running,
nothing is in flight. -/
theorem poller_single_flight :
    (∀ s, PReach s → s.inFlight ≤ 1) ∧
    (∀ s s', PReach s → PStep s PLabel.startSkip s' →
        s'.updating = s.updating ∧ s'.inFlight = s.inFlight ∧
        s'.closed = s.closed ∧ s'.waitingClosers = s.waitingClosers ∧
        s'.sourceCloses = s.sourceCloses ∧ s'.dropped = s.dropped + 1) ∧
    (∀ s, PReach s → s.updating = false → s.inFlight = 0) := by
  refine ⟨?_, ?_, ?_⟩
  · intro s h
    have h1 := (preach_inv h).1
    cases hu : s.updating <;> simp_all
  · intro s s' _ hs
    cases hs with
    | startSkip h => simp
  · intro s h hu
    have h1 := (preach_inv h).1
    simp_all

/-- Witness for `poller_single_flight`: the initial state, the state after
one acquired update, and a dropped trigger while that update runs. -/
theorem poller_single_flight_witness :
    pollerInit.inFlight ≤ 1 ∧
    (⟨true, false, 1, 0, 0, 1⟩ : PollerState).inFlight =
      (⟨true, false, 1, 0, 0, 0⟩ : PollerState).inFlight ∧
    pollerInit.inFlight = 0 := by
  have h0 : PReach pollerInit := PReach.init
  have hstep : PStep pollerInit PLabel.startOk (⟨true, false, 1, 0, 0, 0⟩ : PollerState) :=
    PStep.startOk pollerInit rfl rfl
  have h1 : PReach (⟨true, false, 1, 0, 0, 0⟩ : PollerState) := PReach.step h0 hstep
  have hskip : PStep (⟨true, false, 1, 0, 0, 0⟩ : PollerState) PLabel.startSkip
      (⟨true, false, 1, 0, 0, 1⟩ : PollerState) :=
    PStep.startSkip _ (Or.inr rfl)
  refine ⟨poller_single_flight.1 pollerInit h0, ?_,
    poller_single_flight.2.2 pollerInit h0 rfl⟩
  exact (poller_single_flight.2.1 _ _ h1 hskip).2.1

/-- Claim C5: in every reachable state the source has been closed at most
once; the only transition that closes the source is the tail of `Close`,
which can fire only when no update is in flight (the closer blocks on the
condition variable until the running poll completes); and a `Close` call
that finds the poller already closed is a pure no-op. -/
theorem poller_close_once :
    (∀ s, PReach s → s.sourceCloses ≤ 1) ∧
    (∀ s l s', PReach s → PStep s l s' → s'.sourceCloses ≠ s.sourceCloses →
        l = PLabel.closeFinish ∧ s.updating = false ∧ s.inFlight = 0) ∧
    (∀ s s', PStep s PLabel.closeAgain s' → s' = s) := by
  refine ⟨?_, ?_, ?_⟩
  · intro s h
    have h3 := (preach_inv h).2.2
    omega
  · intro s l s' hr hs hne
    cases hs with
    | startOk h1 h2 => simp at hne
    | startSkip h => simp at hne
    | finish h => simp at hne
    | closeFirst h => simp at hne
    | closeAgain h => simp at hne
    | closeFinish h1 h2 =>
      have hinv := (preach_inv hr).1
      refine ⟨rfl, h2, ?_⟩
      simp_all
  · intro s s' hs
    cases hs with
    | closeAgain h => rfl

/-- Witness for `poller_close_once`: a close that runs to completion from the
initial state, and a second close observed as a no-op. -/
theorem poller_close_once_witness :
    pollerInit.sourceCloses ≤ 1 ∧
    (PLabel.closeFinish = PLabel.closeFinish ∧
      (⟨false, true, 0, 1, 0, 0⟩ : PollerState).updating = false ∧
      (⟨false, true, 0, 1, 0, 0⟩ : PollerState).inFlight = 0) ∧
    (⟨false, true, 0, 0, 1, 0⟩ : PollerState) = (⟨false, true, 0, 0, 1, 0⟩ : PollerState) := by
  have h0 : PReach pollerInit := PReach.init
  have hs1 : PStep pollerInit PLabel.closeFirst (⟨false, true, 0, 1, 0, 0⟩ : PollerState) :=
    PStep.closeFirst pollerInit rfl
  have h1 : PReach (⟨false, true, 0, 1, 0, 0⟩ : PollerState) := PReach.step h0 hs1
  have hs2 : PStep (⟨false, true, 0, 1, 0, 0⟩ : PollerState) PLabel.closeFinish
      (⟨false, true, 0, 0, 1, 0⟩ : PollerState) :=
    PStep.closeFinish _ (by decide) rfl
  have hs3 : PStep (⟨false, true, 0, 0, 1, 0⟩ : PollerState) PLabel.closeAgain
      (⟨false, true, 0, 0, 1, 0⟩ : PollerState) :=
    PStep.closeAgain _ rfl
  refine ⟨poller_close_once.1 pollerInit h0, ?_, poller_close_once.2.2 _ _ hs3⟩
  exact poller_close_once.2.1 _ _ _ h1 hs2 (by decide)

/-! ### The server registry (helper/client.go)

State: the `servers` map (keys are the strings actually used at insertion,
values are session object identities, modelled by `Nat` ids) and a fresh-id
counter standing for allocation of new session objects.  `c.create` (lines
115–128, composing `NewReporter`/`NewLimiter`/`NewCacher`) is external
construction: its outcome per name is the oracle `cErr` (`none` = success,
in which case a fresh session object is produced). -/

/-- Models `strings.ToLower`: lower-case every character of the name. -/
def lowerName (s : String) : String := ⟨s.data.map Char.toLower⟩

structure ClientState where
  servers : String → Option Nat
  nextId : Nat

def cState0 : ClientState := ⟨fun _ => none, 0⟩

/-- `Client.create` (lines 115–128): construct the decorated session for a
(lower-cased) name; on success a fresh session object is allocated. -/
def create (cErr : String → Option Nat) (st : ClientState) (fqdn : String) :
    ClientState × Except Nat Nat :=
  match cErr fqdn with
  | some e => (st, Except.error e)
  | none => ({ st with nextId := st.nextId + 1 }, Except.ok st.nextId)

/-- The shared-read-lock section of `Client.server` (lines 98–101): lower-case
the name and look it up. -/
def serverRead (st : ClientState) (fqdn : String) : Option Nat :=
  st.servers (lowerName fqdn)

/-- The exclusive-lock section of `Client.server` (lines 105–112), entered
after a miss under the read lock.  Note the source does NOT consult the map
again here: it constructs via `c.create(fqdn)` and assigns
`c.servers[fqdn] = r` unconditionally.  Under a race, the state at this point
may differ from the one observed by `serverRead`. -/
def serverLocked (cErr : String → Option Nat) (st : ClientState) (fqdn : String) :
    ClientState × Except Nat Nat :=
  let f := lowerName fqdn
  match create cErr st f with
  | (st', Except.error e) => (st', Except.error e)
  | (st', Except.ok r) =>
    ({ st' with servers := fun k => if k = f then some r else st'.servers k },
      Except.ok r)

/-- `Client.server` (lines 97–113), sequential execution: read-lock check,
then on a miss the exclusive-lock section. -/
def server (cErr : String → Option Nat) (st : ClientState) (fqdn : String) :
    ClientState × Except Nat Nat :=
  match serverRead st fqdn with
  | some r => (st, Except.ok r)
  | none => serverLocked cErr st fqdn

/-- Claim C1, counterexample.  Two concurrent first uses of the same identity:
both miss under the read lock on the empty registry; the first thread's
exclusive-lock section constructs session 0 and inserts it; the second
thread's exclusive-lock section then runs on the resulting state, where the
key is already present — yet it constructs a second session (id 1) and
overwrites the entry, because lines 105–112 never re-check the map.  This
refutes "existence in the map is re-checked before a new session is
constructed" and "a key already present at that point is never
re-constructed or overwritten". -/
theorem client_server_recheck_cex :
    serverRead cState0 "srv" = none ∧
    (serverLocked (fun _ => none) cState0 "srv").2 = Except.ok 0 ∧
    (serverLocked (fun _ => none) cState0 "srv").1.servers "srv" = some 0 ∧
    (serverLocked (fun _ => none)
        (serverLocked (fun _ => none) cState0 "srv").1 "srv").2 = Except.ok 1 ∧
    (serverLocked (fun _ => none)
        (serverLocked (fun _ => none) cState0 "srv").1 "srv").1.servers "srv"
      = some 1 ∧
    (serverLocked (fun _ => none)
        (serverLocked (fun _ => none) cState0 "srv").1 "srv").1.nextId = 2 :=
  ⟨rfl, rfl, rfl, rfl, rfl, rfl⟩

/-- Claim C1 (amended): the exclusive-lock section of `Client.server` does not
re-check existence.  Whenever construction succeeds it unconditionally
allocates a fresh session object (`st.nextId`) and inserts it at the
lower-cased key — overwriting any entry already present — so under a
concurrent first-use race two session objects can be constructed for one
identity and the later insertion replaces the earlier one. -/
theorem client_server_locked_unconditional (cErr : String → Option Nat)
    (st : ClientState) (fqdn : String) (hok : cErr (lowerName fqdn) = none) :
    (serverLocked cErr st fqdn).2 = Except.ok st.nextId ∧
    (serverLocked cErr st fqdn).1.servers (lowerName fqdn) = some st.nextId ∧
    (serverLocked cErr st fqdn).1.nextId = st.nextId + 1 ∧
    (∀ k, k ≠ lowerName fqdn →
        (serverLocked cErr st fqdn).1.servers k = st.servers k) := by
  refine ⟨?_, ?_, ?_, ?_⟩ <;> simp [serverLocked, create, hok]
  intro k hk
  simp [hk]

/-- Witness for `client_server_locked_unconditional` on the empty registry and
the name "AbC". -/
theorem client_server_locked_witness :
    (serverLocked (fun _ => none) cState0 "AbC").2 = Except.ok 0 ∧
    (serverLocked (fun _ => none) cState0 "AbC").1.servers "abc" = some 0 ∧
    (serverLocked (fun _ => none) cState0 "AbC").1.nextId = 0 + 1 ∧
    (∀ k, k ≠ "abc" →
        (serverLocked (fun _ => none) cState0 "AbC").1.servers k
          = cState0.servers k) :=
  client_server_locked_unconditional (fun _ => none) cState0 "AbC" rfl

/-- Claim C8: resolution is case-insensitive.  The read step consults exactly
the lower-cased key, and once resolving `a` has succeeded with session `r`,
resolving any `b` with the same lower-cased name returns the very same
session id and leaves the registry untouched. -/
theorem client_server_case_insensitive :
    (∀ st fqdn, serverRead st fqdn = st.servers (lowerName fqdn)) ∧
    (∀ cErr st a b st' r, lowerName a = lowerName b →
        server cErr st a = (st', Except.ok r) →
        server cErr st' b = (st', Except.ok r)) := by
  constructor
  · intro st fqdn
    rfl
  · intro cErr st a b st' r hab hsrv
    have hmem : st'.servers (lowerName b) = some r := by
      rw [← hab]
      rcases hrd : st.servers (lowerName a) with _ | r₀
      · -- miss: the exclusive-lock section inserted at `lowerName a`
        rcases hc : cErr (lowerName a) with _ | e
        · have h := hsrv
          simp only [server, serverRead, hrd, serverLocked, create, hc] at h
          obtain ⟨hst, hr⟩ := Prod.mk.injEq .. ▸ h
          subst hst
          simp only [if_pos rfl]
          simpa using hr
        · have h := hsrv
          simp only [server, serverRead, hrd, serverLocked, create, hc] at h
          obtain ⟨_, hr⟩ := Prod.mk.injEq .. ▸ h
          exact absurd hr (by simp)
      · -- hit: the state is unchanged and `r₀` is returned
        have h := hsrv
        simp only [server, serverRead, hrd] at h
        obtain ⟨hst, hr⟩ := Prod.mk.injEq .. ▸ h
        subst hst
        rw [hrd]
        congr 1
        simpa using hr
    simp [server, serverRead, hmem]

/-- Witness for `client_server_case_insensitive`: after resolving "SrvA" on
the empty registry, resolving "sRVa" returns the same session 0 without
touching the registry. -/
theorem client_server_case_insensitive_witness :
    serverRead cState0 "X" = cState0.servers (lowerName "X") ∧
    server (fun _ => none) ((server (fun _ => none) cState0 "SrvA").1) "sRVa" =
      ((server (fun _ => none) cState0 "SrvA").1, Except.ok 0) :=
  ⟨client_server_case_insensitive.1 cState0 "X",
   client_server_case_insensitive.2 (fun _ => none) cState0 "SrvA" "sRVa"
     (server (fun _ => none) cState0 "SrvA").1 0 (by decide) rfl⟩

/-! ### `Client.Backlog` (helper/client.go lines 55–73)

```go
func (c *Client) Backlog(from, to string, group ole.GUID) (backlog []int, err error) {
    f, err := c.server(from)
    if err != nil { return nil, err }
    t, err := c.server(to)
    if err != nil { return nil, err }
    v, err := t.Vector(group)
    if err != nil { return nil, err }
    defer v.Close()
    return f.Backlog(v)
}
```

The `Reporter` interface methods on the resolved sessions are external;
`vec s g` is the result of `s.Vector(g)` (vector ids are `Nat`), `bl s v` the
result of `s.Backlog(v)`.  The output records the registry state, the
returned result, which vectors were closed, and whether `f.Backlog` was
invoked at all. -/

structure BEnv where
  cErr : String → Option Nat
  vec : Nat → Nat → Except Nat Nat
  bl : Nat → Nat → Except Nat (List Int)

structure BacklogOut where
  st : ClientState
  result : Except Nat (List Int)
  closedVectors : List Nat
  backlogCalled : Bool

def clientBacklog (env : BEnv) (st : ClientState) (src dst : String)
    (group : Nat) : BacklogOut :=
  match server env.cErr st src with
  | (st1, Except.error e) => ⟨st1, Except.error e, [], false⟩
  | (st1, Except.ok f) =>
    match server env.cErr st1 dst with
    | (st2, Except.error e) => ⟨st2, Except.error e, [], false⟩
    | (st2, Except.ok t) =>
      match env.vec t group with
      | Except.error e => ⟨st2, Except.error e, [], false⟩
      | Except.ok v => ⟨st2, env.bl f v, [v], true⟩

/-- Claim C9: `Client.Backlog` resolves both endpoints, fetches the
destination's vector, computes the backlog on the source against that vector,
and closes the vector regardless of whether the backlog computation succeeds
or fails; an error from either resolution or from the vector fetch is
returned unchanged, and then the backlog computation is never invoked (and no
vector is closed, since none was produced). -/
theorem client_backlog_contract (env : BEnv) (st : ClientState)
    (src dst : String) (group : Nat) :
    (∀ e st1, server env.cErr st src = (st1, Except.error e) →
        clientBacklog env st src dst group = ⟨st1, Except.error e, [], false⟩) ∧
    (∀ f st1 e st2, server env.cErr st src = (st1, Except.ok f) →
        server env.cErr st1 dst = (st2, Except.error e) →
        clientBacklog env st src dst group = ⟨st2, Except.error e, [], false⟩) ∧
    (∀ f st1 t st2 e, server env.cErr st src = (st1, Except.ok f) →
        server env.cErr st1 dst = (st2, Except.ok t) →
        env.vec t group = Except.error e →
        clientBacklog env st src dst group = ⟨st2, Except.error e, [], false⟩) ∧
    (∀ f st1 t st2 v, server env.cErr st src = (st1, Except.ok f) →
        server env.cErr st1 dst = (st2, Except.ok t) →
        env.vec t group = Except.ok v →
        clientBacklog env st src dst group = ⟨st2, env.bl f v, [v], true⟩) := by
  refine ⟨?_, ?_, ?_, ?_⟩
  · intro e st1 h1
    simp [clientBacklog, h1]
  · intro f st1 e st2 h1 h2
    simp [clientBacklog, h1, h2]
  · intro f st1 t st2 e h1 h2 h3
    simp [clientBacklog, h1, h2, h3]
  · intro f st1 t st2 v h1 h2 h3
    simp [clientBacklog, h1, h2, h3]

/-- Witness for `client_backlog_contract`: resolution of both endpoints
succeeds, the destination vector fetch yields vector 100, and the backlog
computation fails with error 55 — the error is surfaced and vector 100 is
closed regardless. -/
theorem client_backlog_contract_witness :
    clientBacklog ⟨fun _ => none, fun _ _ => Except.ok 100, fun _ _ => Except.error 55⟩
        cState0 "a" "b" 7 =
      ⟨(server (fun _ => none) ((server (fun _ => none) cState0 "a").1) "b").1,
        Except.error 55, [100], true⟩ :=
  (client_backlog_contract
      ⟨fun _ => none, fun _ _ => Except.ok 100, fun _ _ => Except.error 55⟩
      cState0 "a" "b" 7).2.2.2
    0 (server (fun _ => none) cState0 "a").1
    1 (server (fun _ => none) ((server (fun _ => none) cState0 "a").1) "b").1
    100 rfl rfl rfl

/-! ### `Client.Close` (helper/client.go lines 43–50)

```go
func (c *Client) Close() {
    c.m.Lock()
    defer c.m.Lock()
    for _, r := range c.servers { r.Close() }
    c.servers = make(map[string]Reporter)
}
```

The deferred statement is `c.m.Lock()` — an attempt to re-acquire the
exclusive lock already held — not `Unlock()`.  The body is the op sequence
lock, close-all-sessions, reset-map, lock.  `runOps` executes the sequence
against the mutex/registry state; acquiring a held exclusive lock blocks
(Go's `sync.RWMutex` is not reentrant and no other code path will ever
release it), which `runOps` renders by stopping with the offending op still
at the head of the remaining list. -/

inductive COp where
  | lock
  | closeAll
  | resetMap
deriving DecidableEq, Repr

structure CloseExec where
  writerHeld : Bool
  sessionsClosed : Bool
  mapReset : Bool
deriving DecidableEq, Repr

def runOps : List COp → CloseExec → CloseExec × List COp
  | [], s => (s, [])
  | COp.lock :: rest, s =>
    if s.writerHeld then (s, COp.lock :: rest)
    else runOps rest { s with writerHeld := true }
  | COp.closeAll :: rest, s => runOps rest { s with sessionsClosed := true }
  | COp.resetMap :: rest, s => runOps rest { s with mapReset := true }

/-- The operations performed by `Client.Close`, in execution order: the
initial `c.m.Lock()`, closing every owned session, resetting the server map,
and finally the deferred `c.m.Lock()`. -/
def closeOps : List COp := [COp.lock, COp.closeAll, COp.resetMap, COp.lock]

/-- A later Client operation starts with `c.m.RLock()` (`Client.server`,
line 99), admitted only when no writer holds the mutex. -/
def rlockAdmitted (s : CloseExec) : Bool := !s.writerHeld

/-- Claim C10: starting from any state in which the mutex is free,
`Client.Close` closes every owned session and resets the server map, and then
its deferred statement tries to re-acquire the exclusive lock it already
holds: execution stops with that `lock` op pending and the mutex held, so the
call never returns, the mutex is never released, and a subsequent Client
operation's read-lock acquisition is not admitted. -/
theorem client_close_deadlock (s : CloseExec) (h : s.writerHeld = false) :
    runOps closeOps s = (⟨true, true, true⟩, [COp.lock]) ∧
    (runOps closeOps s).2 ≠ [] ∧
    rlockAdmitted (runOps closeOps s).1 = false := by
  rcases s with ⟨w, sc, mr⟩
  subst h
  refine ⟨?_, ?_, ?_⟩ <;> simp [closeOps, runOps, rlockAdmitted]

/-- Witness for `client_close_deadlock` from the all-clear initial state. -/
theorem client_close_deadlock_witness :
    runOps closeOps ⟨false, false, false⟩ = (⟨true, true, true⟩, [COp.lock]) ∧
    (runOps closeOps ⟨false, false, false⟩).2 ≠ [] ∧
    rlockAdmitted (runOps closeOps ⟨false, false, false⟩).1 = false :=
  client_close_deadlock ⟨false, false, false⟩ rfl

end Dfsr
